import Mathlib

/-!
Verification development for the DENSITY benchmark tool.

The Go sources are embedded shallowly:

* `internal/bench` (`Run`, `startHogs`, `stopHogs`, `countAlive`,
  `estimateSavedMiB`): pure state-passing model.  OS processes become
  explicit `Proc` records; the environment (launch failures, context
  cancellation, processes dying during warmup, KSM sysfs reads, the
  platform page size) becomes an `Env` of oracles.
* `cmd/densityctl` (`parseScale`, `cmdHog`): pure functions.

Go `float64` arithmetic is modelled exactly over `ℚ`; Go `uint64`/`int64`
machine arithmetic is modelled as `Nat`/`Int` with explicit `% 2 ^ 64`
wrapping where the source can overflow; Go `time.Duration` is an `Int`
count of nanoseconds; fallible operations return `Except`.
-/

namespace Density

/-! ## Savings estimator (internal/bench/bench.go, `estimateSavedMiB`) -/

/-- Go map read with zero default: `m[k]` on a `map[string]int64`. -/
def mapGetInt (m : List (String × Int)) (k : String) : Int :=
  (List.lookup k m).getD 0

/-- Embedding of `estimateSavedMiB`.  `ksmStats == none` is Go's nil map
(the `ksmStats == nil` early return); `pageSize` stands for the platform
constant `os.Getpagesize()`.  The Go `float64` result is modelled in `ℚ`. -/
def estimateSavedMiB (ksmStats : Option (List (String × Int))) (pageSize : Nat) : Rat :=
  match ksmStats with
  | none => 0
  | some m =>
    let shared := mapGetInt m "pages_shared"
    let sharing := mapGetInt m "pages_sharing"
    if shared ≤ 0 ∨ sharing ≤ 0 ∨ sharing < shared then 0
    else ((sharing - shared : Int) : Rat) * (pageSize : Rat) / (1024 * 1024)

/-! ## Profile → hog parameters (internal/bench/bench.go, `startHogs` switch) -/

/-- The `switch cfg.Profile` at the top of `startHogs`: dirty percentage
(`float64`, modelled in `ℚ`) and redirty interval (`time.Duration`,
nanoseconds; `1000000000 = time.Second`).  `interval` is `cfg.Interval`. -/
def profileParams (profile : String) (interval : Int) : Rat × Int :=
  if profile = "P1" then (0, 0)
  else if profile = "P2" then (5, 0)
  else if profile = "P3" then (50, if 0 < interval then interval else 1000000000)
  else (0, 0)

/-! ## Workload process `__hog` (cmd/densityctl/main.go, `cmdHog`) -/

/-- Two's-complement wrap of an integer into `int64`, for
`size := int64(*memMiB) * 1024 * 1024`. -/
def int64wrap (x : Int) : Int :=
  (x + 9223372036854775808) % 18446744073709551616 - 9223372036854775808

/-- One dirty page index:
`uint64(*id)*1315423911 + uint64(j)*2654435761` in wrapping `uint64`
arithmetic, then `% uint64(totalPages)`. -/
def dirtyIndex (id j totalPages : Nat) : Nat :=
  ((id * 1315423911 + j * 2654435761) % 18446744073709551616) % totalPages

/-- The index list built by the `for j := 0; j < dirtyPages; j++` loop. -/
def dirtyIndices (id totalPages dirtyPages : Nat) : List Nat :=
  (List.range dirtyPages).map (fun j => dirtyIndex id j totalPages)

/-- `dirtyPages := int(float64(totalPages) * (*dirtyPct / 100.0))`:
float truncation toward zero; the percentage is nonnegative, so this is
the floor.  `float64` modelled exactly in `ℚ`. -/
def dirtyCount (totalPages : Nat) (dirtyPct : Rat) : Nat :=
  (((totalPages : Rat) * (dirtyPct / 100)).floor).toNat

/-- The dirty-page selection of one hog: count from `dirtyCount`, indices
from `dirtyIndices`. -/
def dirtySelector (id totalPages : Nat) (dirtyPct : Rat) : List Nat :=
  dirtyIndices id totalPages (dirtyCount totalPages dirtyPct)

/-- What `cmdHog` has computed once it reaches its wait loop: the
allocation size, page bookkeeping and the selected dirty indices. -/
structure HogPlan where
  size : Int
  totalPages : Nat
  dirtyPages : Nat
  indices : List Nat
  redirtyMs : Int
deriving DecidableEq, Repr

/-- Embedding of the set-up phase of `cmdHog` (flag validation, size
computation, template/dirty planning), up to the point where the process
blocks waiting for a stop signal.  `pageSize` is `os.Getpagesize()`.
`make([]byte, n)` with negative `n` panics in Go; the panic is modelled
as an error.  Checks appear in source order. -/
def cmdHogSetup (memMiB : Int) (id : Nat) (dirtyPct : Rat) (redirtyMs : Int)
    (pageSize : Nat) : Except String HogPlan :=
  if memMiB ≤ 0 then Except.error "mem-mib muss > 0 sein"
  else if dirtyPct < 0 ∨ dirtyPct > 100 then Except.error "dirty-pct muss 0..100 sein"
  else
    let size := int64wrap (memMiB * 1024 * 1024)
    if size > 2147483647 then Except.error "mem-mib ist zu gross fuer dieses MVP"
    else if size < 0 then Except.error "panic: makeslice: len out of range"
    else
      let totalPages := size.toNat / pageSize
      let dirtyPages := dirtyCount totalPages dirtyPct
      Except.ok
        { size := size
          totalPages := totalPages
          dirtyPages := dirtyPages
          indices := dirtyIndices id totalPages dirtyPages
          redirtyMs := redirtyMs }

/-! ## Scale parsing (cmd/densityctl/main.go, `parseScale`) -/

/-- `strings.Split(s, "..")`: leftmost, non-overlapping split on the
two-character separator. -/
def splitDotsAux : List Char → List Char → List (List Char)
  | [], acc => [acc.reverse]
  | ['.'], acc => [(Char.ofNat 46 :: acc).reverse]
  | '.' :: '.' :: rest, acc => acc.reverse :: splitDotsAux rest []
  | '.' :: c :: rest, acc => splitDotsAux rest (c :: Char.ofNat 46 :: acc)
  | c :: rest, acc => splitDotsAux rest (c :: acc)

/-- `strings.TrimSpace` restricted to the characters Go treats as space
(here: the ASCII whitespace actually relevant to scale strings). -/
def trimChars (l : List Char) : List Char :=
  ((l.dropWhile Char.isWhitespace).reverse.dropWhile Char.isWhitespace).reverse

/-- Digit-string value; `none` when empty or containing a non-digit. -/
def digitsVal (l : List Char) : Option Nat :=
  if l = [] then none
  else if l.all Char.isDigit then
    some (l.foldl (fun a c => a * 10 + (c.toNat - 48)) 0)
  else none

/-- `strconv.Atoi` on a trimmed string: optional sign, then digits.
(The int64 range check of the real `Atoi` is not modelled; the claims
only involve small literals.) -/
def atoiChars : List Char → Option Int
  | '+' :: rest => (digitsVal rest).map Int.ofNat
  | '-' :: rest => (digitsVal rest).map (fun n => -(n : Int))
  | l => (digitsVal l).map Int.ofNat

/-- The `for i := min; i <= max; i += step` append loop, with enough fuel
for any `step ≥ 1` (the caller validates `step > 0` first). -/
def scaleGo (maxB step : Int) : Nat → Int → List Int
  | 0, _ => []
  | fuel + 1, i => if i ≤ maxB then i :: scaleGo maxB step fuel (i + step) else []

/-- The numeric tail of `parseScale` after `Atoi`: the `step <= 0` check
(only when a step was given explicitly), the bounds check
`min <= 0 || max <= 0 || max < min`, then the loop. -/
def scaleFromBounds (minB maxB step : Int) (stepExplicit : Bool) :
    Except String (List Int) :=
  if stepExplicit ∧ step ≤ 0 then Except.error "step muss > 0 sein"
  else if minB ≤ 0 ∨ maxB ≤ 0 ∨ maxB < minB then
    Except.error "ungueltige Grenzen"
  else Except.ok (scaleGo maxB step ((maxB - minB).toNat + 1) minB)

/-- Embedding of `parseScale`: split on `".."`, require 2 or 3 parts,
`Atoi` each (trimmed), then validate and expand. -/
def parseScale (s : String) : Except String (List Int) :=
  match splitDotsAux s.data [] with
  | [a, b] =>
    match atoiChars (trimChars a), atoiChars (trimChars b) with
    | some minB, some maxB => scaleFromBounds minB maxB 1 false
    | _, _ => Except.error "Atoi"
  | [a, b, c] =>
    match atoiChars (trimChars a), atoiChars (trimChars b), atoiChars (trimChars c) with
    | some minB, some maxB, some step => scaleFromBounds minB maxB step true
    | _, _, _ => Except.error "Atoi"
  | _ => Except.error "ungueltiges scale-Format"

/-! ## Process lifecycle (internal/bench/bench.go: `startHogs`, `stopHogs`,
`countAlive`)

A spawned hog is a `Proc`: its instance id, the hog parameters it was
started with (`--dirty-pct`, `--redirty-ms`), whether it honours SIGTERM
(an environment fact about the OS process), and its liveness. -/

inductive Liveness
  | alive
  | exited
deriving DecidableEq, Repr

structure Proc where
  id : Nat
  dirtyPct : Rat
  redirtyMs : Int
  respondsTerm : Bool
  live : Liveness
deriving DecidableEq, Repr

/-- `countAlive`: one `Signal(0)` probe per process, counting successes. -/
def countAlive (ps : List Proc) : Nat :=
  (ps.filter (fun p => p.live = Liveness.alive)).length

/-- Effect of `Process.Signal(syscall.SIGTERM)` on one process: a process
that honours SIGTERM exits, one that ignores it stays alive. -/
def sigtermProc (p : Proc) : Proc :=
  if p.respondsTerm then { p with live := Liveness.exited } else p

/-- Effect of the unconditional `Process.Kill()` + `Process.Wait()`. -/
def killProc (p : Proc) : Proc :=
  { p with live := Liveness.exited }

/-- `stopHogs` polling constants: 100ms poll interval, 5s deadline. -/
def stopPollMs : Nat := 100

def stopDeadlineMs : Nat := 5000

/-- The `for time.Now().Before(deadline)` poll loop: pure liveness probes
separated by sleeps; it stops early when no probe succeeds and never
mutates the processes. Fuel = deadline / interval. -/
def pollLoop : Nat → List Proc → List Proc
  | 0, ps => ps
  | fuel + 1, ps => if countAlive ps = 0 then ps else pollLoop fuel ps

/-- State effect of `stopHogs`: SIGTERM every process, poll, then kill and
reap every process unconditionally. -/
def stopHogsProcs (ps : List Proc) : List Proc :=
  (pollLoop (stopDeadlineMs / stopPollMs) (ps.map sigtermProc)).map killProc

/-- `stopHogs` itself: ends in `return nil` on every path, so the error
component is always `ok`; the payload is the processes' final states. -/
def stopHogs (ps : List Proc) : Except String (List Proc) :=
  Except.ok (stopHogsProcs ps)

/-- A freshly started hog process (`exec.Cmd` after a successful
`cmd.Start()`): id `i`, hog flags as built in `startHogs`. -/
def mkProc (dirtyPct : Rat) (redirtyMs : Int) (responds : Nat → Bool) (i : Nat) : Proc :=
  { id := i
    dirtyPct := dirtyPct
    redirtyMs := redirtyMs
    respondsTerm := responds i
    live := Liveness.alive }

/-- The spawn loop of `startHogs`.  `launchOk i` is the environment fact
whether the `i`-th `cmd.Start()` succeeds (Go surfaces an opaque exec
error; the message is not significant).  On failure the already started
batch is passed through `stopHogs` and no handles are returned.  The
second component tracks every process created by the call and its state
when the call returns. -/
def startHogsGo (launchOk : Nat → Bool) (responds : Nat → Bool)
    (dirtyPct : Rat) (redirtyMs : Int) :
    Nat → Nat → List Proc → Except String (List Proc) × List Proc
  | 0, _, acc => (Except.ok acc, acc)
  | fuel + 1, i, acc =>
    if launchOk i then
      startHogsGo launchOk responds dirtyPct redirtyMs fuel (i + 1)
        (acc ++ [mkProc dirtyPct redirtyMs responds i])
    else (Except.error "launch failed", stopHogsProcs acc)

/-- `startHogs` for `n` hogs (the hog parameters are computed from the
profile by the caller-visible `profileParams`). -/
def startHogs (launchOk : Nat → Bool) (responds : Nat → Bool)
    (dirtyPct : Rat) (redirtyMs : Int) (n : Nat) :
    Except String (List Proc) × List Proc :=
  startHogsGo launchOk responds dirtyPct redirtyMs n 0 []

/-! ## Benchmark orchestrator (internal/bench/bench.go, `Run`) -/

/-- `bench.Config`.  Durations (`Warmup`, `Interval`) are nanosecond
counts. -/
structure Config where
  execPath : String
  outDir : String
  ksmPath : String
  profile : String
  instances : List Int
  memMiB : Int
  warmup : Int
  interval : Int
deriving DecidableEq, Repr

/-- The defaulting prelude of `Run` (`OutDir`, `KSMPath`, `MemMiB`,
`Warmup`, `Profile`). -/
def normalizeConfig (cfg : Config) : Config :=
  { cfg with
    outDir := if cfg.outDir = "" then "results" else cfg.outDir
    ksmPath := if cfg.ksmPath = "" then "/sys/kernel/mm/ksm" else cfg.ksmPath
    memMiB := if cfg.memMiB ≤ 0 then 256 else cfg.memMiB
    warmup := if cfg.warmup ≤ 0 then 20000000000 else cfg.warmup
    profile := if cfg.profile = "" then "P1" else cfg.profile }

/-- `bench.StepResult` (the fields the core logic writes; the raw
pre/post snapshot maps are carried by the environment instead). -/
structure StepResult where
  n : Int
  alive : Nat
  duration : Int
  profile : String
  memMiB : Int
  warmup : Int
  estimatedSavedMiB : Rat
  notes : String
deriving DecidableEq, Repr

/-- The environment of one `Run`: everything the orchestrator observes
from outside.  Oracles are indexed by the number of executed (not
skipped) steps so far, and per-process where applicable. -/
structure Env where
  pageSize : Nat
  launchOk : Nat → Nat → Bool
  responds : Nat → Nat → Bool
  cancel : Nat → Bool
  dies : Nat → Nat → Bool
  postKSM : Nat → Option (List (String × Int))

/-- Processes that die on their own during the warmup wait (the hog never
exits by itself, but the OS may still lose it; `countAlive` samples
this). -/
def applyDeaths (dies : Nat → Bool) (ps : List Proc) : List Proc :=
  ps.map (fun p => if dies p.id then { p with live := Liveness.exited } else p)

inductive RunError
  | configExecPath
  | configInstances
  | cancelled
deriving DecidableEq, Repr

/-- Outcome of `Run`: the accumulated `StepResult`s and the error value,
plus two facts about the outside world that the Go function only has as
side effects: the final state of every process it ever spawned, and the
count of still-alive processes observed at each spawn point (ghost
trace, for the no-overlap guarantee). -/
structure RunOutcome where
  steps : List StepResult
  error : Option RunError
  world : List Proc
  spawnAliveCounts : List Nat
deriving DecidableEq, Repr

/-- Dirty percentage handed to the hogs of a run (first component of the
profile switch in `startHogs`). -/
def hogDirtyPct (c : Config) : Rat :=
  (profileParams c.profile c.interval).1

/-- `--redirty-ms` argument: `redirty.Milliseconds()`. -/
def hogRedirtyMs (c : Config) : Int :=
  (profileParams c.profile c.interval).2 / 1000000

/-- The step record appended when `startHogs` fails: zero values except
the copied config fields and the failure note. -/
def abortStep (c : Config) (n : Int) (msg : String) : StepResult :=
  { n := n
    alive := 0
    duration := 0
    profile := c.profile
    memMiB := c.memMiB
    warmup := c.warmup
    estimatedSavedMiB := 0
    notes := "Startfehler: " ++ msg }

/-- The step record for a completed step; `ps` are the step's processes
as sampled after warmup (post `applyDeaths`). -/
def okStep (env : Env) (c : Config) (k : Nat) (n : Int) (ps : List Proc) : StepResult :=
  { n := n
    alive := countAlive ps
    duration := c.warmup
    profile := c.profile
    memMiB := c.memMiB
    warmup := c.warmup
    estimatedSavedMiB := estimateSavedMiB (env.postKSM k) env.pageSize
    notes := "" }

/-- The `for _, n := range cfg.Instances` loop of `Run`.  `k` counts
executed steps, `acc` the recorded steps, `world` every process spawned
so far, `spawns` the ghost trace of alive counts at spawn points. -/
def runLoop (env : Env) (c : Config) :
    List Int → Nat → List StepResult → List Proc → List Nat → RunOutcome
  | [], _, acc, world, spawns =>
    { steps := acc, error := none, world := world, spawnAliveCounts := spawns }
  | n :: rest, k, acc, world, spawns =>
    if n ≤ 0 then runLoop env c rest k acc world spawns
    else
      match startHogs (env.launchOk k) (env.responds k) (hogDirtyPct c)
          (hogRedirtyMs c) n.toNat with
      | (Except.error msg, procs) =>
        runLoop env c rest (k + 1) (acc ++ [abortStep c n msg]) (world ++ procs)
          (spawns ++ [countAlive world])
      | (Except.ok procs, _) =>
        if env.cancel k then
          { steps := acc
            error := some RunError.cancelled
            world := world ++ stopHogsProcs procs
            spawnAliveCounts := spawns ++ [countAlive world] }
        else
          runLoop env c rest (k + 1)
            (acc ++ [okStep env c k n (applyDeaths (env.dies k) procs)])
            (world ++ stopHogsProcs (applyDeaths (env.dies k) procs))
            (spawns ++ [countAlive world])

/-- Embedding of `bench.Run`.  The two configuration checks precede the
loop; on a config error Go returns a nil result, modelled as an empty
outcome carrying the error.  Artifact writing after the loop is external
I/O and not modelled. -/
def RunModel (env : Env) (cfg : Config) : RunOutcome :=
  if cfg.execPath = "" then
    { steps := [], error := some RunError.configExecPath, world := [], spawnAliveCounts := [] }
  else
    let c := normalizeConfig cfg
    if c.instances = [] then
      { steps := [], error := some RunError.configInstances, world := [], spawnAliveCounts := [] }
    else runLoop env c c.instances 0 [] [] []

/-- The record produced for executed step `k` with requested count `n`
when the run is not cancelled there (used to characterise `runLoop`). -/
def mkStep (env : Env) (c : Config) (k : Nat) (n : Int) : StepResult :=
  match startHogs (env.launchOk k) (env.responds k) (hogDirtyPct c)
      (hogRedirtyMs c) n.toNat with
  | (Except.error msg, _) => abortStep c n msg
  | (Except.ok procs, _) => okStep env c k n (applyDeaths (env.dies k) procs)

/-- The positive instance counts, in order (the loop skips `n <= 0`). -/
def posFilter (l : List Int) : List Int :=
  l.filter (fun n => 0 < n)

/-! ## Concrete run environments (for witnesses) -/

/-- A benign environment: every launch succeeds, no process dies, no
cancellation, KSM stats absent, 4 KiB pages. -/
def envBase : Env :=
  ⟨4096, fun _ _ => true, fun _ _ => true, fun _ => false, fun _ _ => false,
    fun _ => none⟩

/-- Like `envBase`, but the third launch (index 2) of every step fails. -/
def envLaunchFail : Env :=
  ⟨4096, fun _ it => it != 2, fun _ _ => true, fun _ => false, fun _ _ => false,
    fun _ => none⟩

/-- Like `envBase`, but cancellation fires during every warmup. -/
def envCancelAll : Env :=
  ⟨4096, fun _ _ => true, fun _ _ => true, fun _ => true, fun _ _ => false,
    fun _ => none⟩

/-- A demo configuration with the given instance counts. -/
def cfgDemo (l : List Int) : Config :=
  ⟨"densityctl", "", "", "P1", l, 256, 1000000000, 0⟩

/-! ## Supporting lemmas -/

deriving instance DecidableEq for Except

lemma int64wrap_eq_self {x : Int} (h0 : 0 ≤ x) (h1 : x ≤ 9223372036854775807) :
    int64wrap x = x := by
  unfold int64wrap
  omega

lemma rat_floor_intFloor (q : Rat) : q.floor = ⌊q⌋ := rfl

lemma dirtyCount_three_hundred : dirtyCount 3 100 = 3 := by
  simp only [dirtyCount, rat_floor_intFloor]
  norm_num
  decide

/-! ## Claims -/

/-- C1: for every KSM statistics map, the savings estimator returns 0 when
the map is absent or empty, when `pages_shared` is non-positive, or when
`pages_sharing < pages_shared`; otherwise it returns
`(pages_sharing - pages_shared) * pageSize / 2^20` MiB, and the result is
never negative. -/
theorem c1_savings_estimator (stats : Option (List (String × Int)))
    (m : List (String × Int)) (ps : Nat) :
    0 ≤ estimateSavedMiB stats ps
    ∧ estimateSavedMiB none ps = 0
    ∧ estimateSavedMiB (some []) ps = 0
    ∧ (mapGetInt m "pages_shared" ≤ 0 → estimateSavedMiB (some m) ps = 0)
    ∧ (mapGetInt m "pages_sharing" < mapGetInt m "pages_shared" →
        estimateSavedMiB (some m) ps = 0)
    ∧ (0 < mapGetInt m "pages_shared" →
        mapGetInt m "pages_shared" ≤ mapGetInt m "pages_sharing" →
        estimateSavedMiB (some m) ps =
          ((mapGetInt m "pages_sharing" - mapGetInt m "pages_shared" : Int) : Rat)
            * (ps : Rat) / 2 ^ 20) := by
  refine ⟨?_, rfl, by simp [estimateSavedMiB, mapGetInt], ?_, ?_, ?_⟩
  · match stats with
    | none => simp [estimateSavedMiB]
    | some m' =>
      simp only [estimateSavedMiB]
      split_ifs with h
      · exact le_refl 0
      · push_neg at h
        obtain ⟨h1, h2, h3⟩ := h
        apply div_nonneg
        · apply mul_nonneg
          · exact_mod_cast sub_nonneg.mpr h3
          · positivity
        · norm_num
  · intro h
    simp only [estimateSavedMiB]
    rw [if_pos (Or.inl h)]
  · intro h
    simp only [estimateSavedMiB]
    rw [if_pos (Or.inr (Or.inr h))]
  · intro h1 h2
    simp only [estimateSavedMiB]
    rw [if_neg (by push_neg; exact ⟨by omega, by omega, by omega⟩)]
    norm_num

theorem c1_savings_estimator_witness :
    (0 : Int) < mapGetInt [("pages_shared", 2), ("pages_sharing", 10)] "pages_shared"
    ∧ estimateSavedMiB (some [("pages_shared", 2), ("pages_sharing", 10)]) 4096 =
        ((mapGetInt [("pages_shared", 2), ("pages_sharing", 10)] "pages_sharing"
          - mapGetInt [("pages_shared", 2), ("pages_sharing", 10)] "pages_shared" : Int) : Rat)
          * (4096 : Rat) / 2 ^ 20 :=
  ⟨by decide,
    (c1_savings_estimator (some [("pages_shared", 2), ("pages_sharing", 10)])
      [("pages_shared", 2), ("pages_sharing", 10)] 4096).2.2.2.2.2
      (by decide) (by decide)⟩

/-- C4: the Profile → (dirty fraction, redirty interval) mapping used when
spawning workloads is a pure function: P1 ↦ (0%, disabled),
P2 ↦ (5%, disabled), P3 ↦ (50%, the configured override when positive,
else 1 second); only P3's interval is overridable. -/
theorem c4_profile_params (i j : Int) :
    profileParams "P1" i = (0, 0)
    ∧ profileParams "P2" i = (5, 0)
    ∧ (0 < i → profileParams "P3" i = (50, i))
    ∧ (i ≤ 0 → profileParams "P3" i = (50, 1000000000))
    ∧ profileParams "P1" i = profileParams "P1" j
    ∧ profileParams "P2" i = profileParams "P2" j := by
  have h1 : ∀ t : Int, profileParams "P1" t = (0, 0) := fun t => by
    simp [profileParams]
  have h2 : ∀ t : Int, profileParams "P2" t = (5, 0) := fun t => by
    simp [profileParams]
  refine ⟨h1 i, h2 i, ?_, ?_, by rw [h1 i, h1 j], by rw [h2 i, h2 j]⟩
  · intro h
    simp [profileParams, h]
  · intro h
    have h' : ¬ (0 < i) := by omega
    simp [profileParams, h']

theorem c4_profile_params_witness :
    profileParams "P3" 5 = (50, 5) ∧ profileParams "P3" 0 = (50, 1000000000) :=
  ⟨(c4_profile_params 5 0).2.2.1 (by norm_num),
    (c4_profile_params 0 5).2.2.2.1 (by norm_num)⟩

/-- C5 (counterexample): the claim says the j-th dirty index equals
`(id * 1315423911 + j * 2654435761) mod T`; for `id = 2^54`, `T = 3`,
`j = 0` the `uint64` products wrap, so the code's index (1) differs from
that formula (0). -/
theorem c5_dirty_selector_counterexample :
    (dirtySelector 18014398509481984 3 100).get? 0 ≠
      some ((18014398509481984 * 1315423911 + 0 * 2654435761) % 3) := by
  simp only [dirtySelector, dirtyCount_three_hundred]
  decide

/-- C5 (amended): for `T > 0` and `p ∈ [0,100]` the selection has exactly
`floor(T * p / 100)` indices, the j-th being
`((id * 1315423911 + j * 2654435761) mod 2^64) mod T` — the products are
taken in wrapping 64-bit arithmetic — and re-invocation with identical
inputs yields the identical sequence. -/
theorem c5_dirty_selector_amended (id T j : Nat) (p : Rat)
    (hT : 0 < T) (hp0 : 0 ≤ p) (hp1 : p ≤ 100) :
    ((dirtySelector id T p).length : Int) = ((T : Rat) * p / 100).floor
    ∧ (j < dirtyCount T p →
        (dirtySelector id T p).get? j =
          some (((id * 1315423911 + j * 2654435761) % 2 ^ 64) % T))
    ∧ dirtySelector id T p = dirtySelector id T p := by
  refine ⟨?_, ?_, rfl⟩
  · have hmul : (T : Rat) * (p / 100) = (T : Rat) * p / 100 := by ring
    have hnn : 0 ≤ (T : Rat) * p / 100 := by positivity
    have hfl : 0 ≤ ((T : Rat) * p / 100).floor := by
      rw [rat_floor_intFloor]
      exact Int.floor_nonneg.mpr hnn
    simp only [dirtySelector, dirtyIndices, dirtyCount, List.length_map,
      List.length_range, hmul]
    omega
  · intro hj
    simp only [dirtySelector, dirtyIndices, List.get?_map,
      List.get?_range hj, Option.map_some']
    simp only [dirtyIndex]
    norm_num

theorem c5_dirty_selector_amended_witness :
    ((dirtySelector 1 10 50).length : Int) = ((10 : Rat) * 50 / 100).floor
    ∧ (2 < dirtyCount 10 50 →
        (dirtySelector 1 10 50).get? 2 =
          some (((1 * 1315423911 + 2 * 2654435761) % 2 ^ 64) % 10))
    ∧ dirtySelector 1 10 50 = dirtySelector 1 10 50 :=
  c5_dirty_selector_amended 1 10 2 50 (by norm_num) (by norm_num) (by norm_num)

/-- C8 (counterexample): the claim reads `"10..80"` as yielding
`[10,20,...,80]`; with the default step 1 the code yields the 71
consecutive integers 10..80 instead. -/
theorem c8_parse_scale_counterexample :
    parseScale "10..80" ≠ Except.ok [10, 20, 30, 40, 50, 60, 70, 80] := by
  decide

/-- C8 (amended): scale parsing accepts `min..max` (default step 1) and
`min..max..step` with positive bounds, `max ≥ min`, `step > 0`;
`"10..80"` yields the 71 consecutive integers 10..80, `"10..80..10"`
yields `[10,20,30,40,50,60,70,80]`; `"5..3"`, `"0..10"` and
`"10..80..0"` are rejected. -/
theorem c8_parse_scale_amended (minB maxB step : Int) (e : Bool)
    (h1 : 0 < minB) (h2 : minB ≤ maxB) (h3 : 0 < step) :
    parseScale "10..80" = Except.ok ((List.range 71).map (fun v => (10 : Int) + (v : Int)))
    ∧ parseScale "10..80..10" = Except.ok [10, 20, 30, 40, 50, 60, 70, 80]
    ∧ (∃ err, parseScale "5..3" = Except.error err)
    ∧ (∃ err, parseScale "0..10" = Except.error err)
    ∧ (∃ err, parseScale "10..80..0" = Except.error err)
    ∧ (∃ l, scaleFromBounds minB maxB step e = Except.ok l) := by
  refine ⟨by decide, by decide, ⟨"ungueltige Grenzen", by decide⟩,
    ⟨"ungueltige Grenzen", by decide⟩, ⟨"step muss > 0 sein", by decide⟩, ?_⟩
  refine ⟨scaleGo maxB step ((maxB - minB).toNat + 1) minB, ?_⟩
  simp only [scaleFromBounds]
  rw [if_neg (fun hc => absurd hc.2 (by omega)), if_neg (by omega)]

theorem c8_parse_scale_amended_witness :
    parseScale "10..80" = Except.ok ((List.range 71).map (fun v => (10 : Int) + (v : Int)))
    ∧ parseScale "10..80..10" = Except.ok [10, 20, 30, 40, 50, 60, 70, 80]
    ∧ (∃ err, parseScale "5..3" = Except.error err)
    ∧ (∃ err, parseScale "0..10" = Except.error err)
    ∧ (∃ err, parseScale "10..80..0" = Except.error err)
    ∧ (∃ l, scaleFromBounds 2 5 2 true = Except.ok l) :=
  c8_parse_scale_amended 2 5 2 true (by norm_num) (by norm_num) (by norm_num)

/-- C9 (counterexample): the claim says every request whose byte size
exceeds `2^31 - 1` is rejected before allocation; at `memMiB = 2^44` the
`int64` size computation wraps to 0, all checks pass, and the hog sets up
(with an empty buffer) instead of returning an error. -/
theorem c9_hog_validation_counterexample :
    (cmdHogSetup 17592186044416 0 0 0 4096).isOk = true
    ∧ (2147483647 : Int) < 17592186044416 * 1024 * 1024 := by
  constructor
  · decide
  · decide

/-- C9 (amended): the hog command rejects, before any allocation, every
invocation with `memMiB ≤ 0`, dirty fraction outside `[0,100]`, or a byte
size above `2^31 - 1` — provided the MiB→byte conversion does not
overflow `int64` (above `2^63 - 1` the wrapped size can evade the
check). -/
theorem c9_hog_validation_amended (memMiB : Int) (id : Nat) (dp : Rat)
    (rms : Int) (ps : Nat)
    (h : memMiB ≤ 0 ∨ dp < 0 ∨ dp > 100 ∨
      (2147483647 < memMiB * 1024 * 1024
        ∧ memMiB * 1024 * 1024 ≤ 9223372036854775807)) :
    ∃ e, cmdHogSetup memMiB id dp rms ps = Except.error e := by
  by_cases h1 : memMiB ≤ 0
  · exact ⟨_, by rw [cmdHogSetup, if_pos h1]⟩
  by_cases h2 : dp < 0 ∨ dp > 100
  · exact ⟨_, by rw [cmdHogSetup, if_neg h1, if_pos h2]⟩
  rcases h with h' | h' | h' | ⟨h3, h4⟩
  · exact absurd h' h1
  · exact absurd (Or.inl h') h2
  · exact absurd (Or.inr h') h2
  · have hw : int64wrap (memMiB * 1024 * 1024) = memMiB * 1024 * 1024 :=
      int64wrap_eq_self (by omega) h4
    refine ⟨"mem-mib ist zu gross fuer dieses MVP", ?_⟩
    simp only [cmdHogSetup]
    rw [if_neg h1, if_neg h2, hw, if_pos (show memMiB * 1024 * 1024 > 2147483647 by omega)]

theorem c9_hog_validation_amended_witness :
    ∃ e, cmdHogSetup (-1) 0 0 0 4096 = Except.error e :=
  c9_hog_validation_amended (-1) 0 0 0 4096 (Or.inl (by norm_num))

/-! ## Lifecycle lemmas -/

lemma pollLoop_id (fuel : Nat) (ps : List Proc) : pollLoop fuel ps = ps := by
  induction fuel with
  | zero => rfl
  | succ f ih =>
    simp only [pollLoop]
    split
    · rfl
    · exact ih

lemma stopHogsProcs_mark (ps : List Proc) :
    stopHogsProcs ps = ps.map (fun p => { p with live := Liveness.exited }) := by
  simp only [stopHogsProcs, pollLoop_id, List.map_map]
  apply List.map_congr_left
  intro p _
  simp only [Function.comp_apply, killProc, sigtermProc]
  split <;> rfl

lemma stopHogsProcs_exited {ps : List Proc} {p : Proc} (h : p ∈ stopHogsProcs ps) :
    p.live = Liveness.exited := by
  rw [stopHogsProcs_mark] at h
  obtain ⟨q, _, rfl⟩ := List.mem_map.mp h
  rfl

lemma stopHogsProcs_idem (ps : List Proc) :
    stopHogsProcs (stopHogsProcs ps) = stopHogsProcs ps := by
  simp only [stopHogsProcs_mark, List.map_map]
  apply List.map_congr_left
  intro p _
  rfl

lemma stopHogsProcs_length (ps : List Proc) :
    (stopHogsProcs ps).length = ps.length := by
  rw [stopHogsProcs_mark, List.length_map]

lemma countAlive_eq_zero {ps : List Proc}
    (h : ∀ p ∈ ps, p.live = Liveness.exited) : countAlive ps = 0 := by
  simp only [countAlive, List.length_eq_zero]
  rw [List.filter_eq_nil]
  intro p hp
  simp [h p hp]

lemma startHogsGo_fail (lk rs : Nat → Bool) (dp : Rat) (rms : Int) :
    ∀ (f fuel i : Nat) (acc : List Proc), f < fuel →
      (∀ j, j < f → lk (i + j) = true) → lk (i + f) = false →
      startHogsGo lk rs dp rms fuel i acc =
        (Except.error "launch failed",
          stopHogsProcs (acc ++ (List.range' i f).map (mkProc dp rms rs))) := by
  intro f
  induction f with
  | zero =>
    intro fuel i acc hf _ hfail
    cases fuel with
    | zero => omega
    | succ g =>
      rw [Nat.add_zero] at hfail
      simp [startHogsGo, hfail, List.range']
  | succ f ih =>
    intro fuel i acc hf hpre hfail
    cases fuel with
    | zero => omega
    | succ g =>
      have hi : lk i = true := by
        have := hpre 0 (by omega)
        simpa using this
      simp only [startHogsGo, hi, if_true]
      rw [ih g (i + 1) (acc ++ [mkProc dp rms rs i]) (by omega)
        (fun j hj => by
          have := hpre (j + 1) (by omega)
          rwa [show i + (j + 1) = i + 1 + j by omega] at this)
        (by rwa [show i + 1 + f = i + (f + 1) by omega])]
      rw [List.append_assoc]
      rw [show List.range' i (f + 1) = i :: List.range' (i + 1) f from rfl]
      rfl

lemma startHogsGo_error_exited (lk rs : Nat → Bool) (dp : Rat) (rms : Int) :
    ∀ (fuel i : Nat) (acc : List Proc) (msg : String) (procs : List Proc),
      startHogsGo lk rs dp rms fuel i acc = (Except.error msg, procs) →
      ∀ p ∈ procs, p.live = Liveness.exited := by
  intro fuel
  induction fuel with
  | zero =>
    intro i acc msg procs h
    simp [startHogsGo] at h
  | succ g ih =>
    intro i acc msg procs h
    simp only [startHogsGo] at h
    by_cases hl : lk i
    · rw [if_pos hl] at h
      exact ih (i + 1) _ msg procs h
    · rw [if_neg hl] at h
      have h2 : stopHogsProcs acc = procs := congrArg Prod.snd h
      subst h2
      intro p hp
      exact stopHogsProcs_exited hp

/-- Some launch among `0..n-1` fails, so `startHogs` surfaces an error with
no handles, and every created process has been stopped. -/
lemma startHogs_fail_of_exists (lk rs : Nat → Bool) (dp : Rat) (rms : Int)
    (n : Nat) (h : ∃ it, it < n ∧ lk it = false) :
    ∃ msg procs, startHogs lk rs dp rms n = (Except.error msg, procs)
      ∧ ∀ p ∈ procs, p.live = Liveness.exited := by
  have hex : ∃ it, lk it = false := ⟨h.choose, h.choose_spec.2⟩
  classical
  let f := Nat.find hex
  have hfail : lk f = false := Nat.find_spec hex
  have hmin : ∀ j, j < f → lk j = true := by
    intro j hj
    have := Nat.find_min hex hj
    simpa using this
  have hflt : f < n := by
    obtain ⟨it, hit, hfit⟩ := h
    by_contra hge
    have : f ≤ it := Nat.find_le hfit
    omega
  refine ⟨"launch failed", stopHogsProcs ((List.range' 0 f).map (mkProc dp rms rs)),
    ?_, ?_⟩
  · have hgo := startHogsGo_fail lk rs dp rms f n 0 [] hflt
      (fun j hj => by simpa using hmin j hj) (by simpa using hfail)
    simpa [startHogs] using hgo
  · intro p hp
    exact stopHogsProcs_exited hp

/-! ## Claims about the lifecycle -/

/-- C3: teardown always returns without error, is idempotent, and after the
graceful SIGTERM and the bounded sub-second-interval poll (100ms interval,
5s deadline) the forced kill-and-reap is applied to every handle
unconditionally, so no process survives teardown. -/
theorem c3_stop_hogs (ps : List Proc) :
    stopHogs ps = Except.ok (stopHogsProcs ps)
    ∧ stopHogsProcs (stopHogsProcs ps) = stopHogsProcs ps
    ∧ (∀ p ∈ stopHogsProcs ps, p.live = Liveness.exited)
    ∧ countAlive (stopHogsProcs ps) = 0
    ∧ (stopHogsProcs ps).length = ps.length
    ∧ stopPollMs < 1000 ∧ stopDeadlineMs = 5000 :=
  ⟨rfl, stopHogsProcs_idem ps, fun _ hp => stopHogsProcs_exited hp,
    countAlive_eq_zero (fun _ hp => stopHogsProcs_exited hp),
    stopHogsProcs_length ps, by norm_num [stopPollMs], rfl⟩

/-! ## Orchestrator lemmas -/

lemma startHogs_error_exited {lk rs : Nat → Bool} {dp : Rat} {rms : Int}
    {n : Nat} {msg : String} {procs : List Proc}
    (h : startHogs lk rs dp rms n = (Except.error msg, procs)) :
    ∀ p ∈ procs, p.live = Liveness.exited :=
  startHogsGo_error_exited lk rs dp rms n 0 [] msg procs h

lemma mkStep_n (env : Env) (c : Config) (k : Nat) (n : Int) :
    (mkStep env c k n).n = n := by
  rw [mkStep]
  split <;> rfl

lemma mkStep_fail (env : Env) (c : Config) (k : Nat) (n : Int)
    (h : ∃ it, it < n.toNat ∧ env.launchOk k it = false) :
    (mkStep env c k n).alive = 0
    ∧ ∃ msg, (mkStep env c k n).notes = "Startfehler: " ++ msg := by
  obtain ⟨msg, procs, hsh, -⟩ := startHogs_fail_of_exists (env.launchOk k)
    (env.responds k) (hogDirtyPct c) (hogRedirtyMs c) n.toNat h
  rw [mkStep, hsh]
  exact ⟨rfl, msg, rfl⟩

lemma posFilter_cons_pos {n : Int} (h : 0 < n) (l : List Int) :
    posFilter (n :: l) = n :: posFilter l := by
  simp [posFilter, List.filter_cons, h]

lemma posFilter_cons_nonpos {n : Int} (h : n ≤ 0) (l : List Int) :
    posFilter (n :: l) = posFilter l := by
  have h' : ¬ (0 < n) := by omega
  simp [posFilter, List.filter_cons, h']

lemma enumFrom_snd (k : Nat) (l : List Int) :
    (List.enumFrom k l).map (fun q => q.2) = l := by
  induction l generalizing k with
  | nil => rfl
  | cons x xs ih => simp [List.enumFrom, ih]

lemma runLoop_no_cancel (env : Env) (c : Config) (hnc : ∀ t, env.cancel t = false) :
    ∀ (l : List Int) (k : Nat) (acc : List StepResult) (w : List Proc) (s : List Nat),
      (runLoop env c l k acc w s).steps
          = acc ++ (List.enumFrom k (posFilter l)).map (fun q => mkStep env c q.1 q.2)
      ∧ (runLoop env c l k acc w s).error = none := by
  intro l
  induction l with
  | nil => intro k acc w s; simp [runLoop, posFilter]
  | cons n rest ih =>
    intro k acc w s
    by_cases hn : n ≤ 0
    · rw [posFilter_cons_nonpos hn]
      simp only [runLoop, if_pos hn]
      exact ih k acc w s
    · have h0 : 0 < n := by omega
      rw [posFilter_cons_pos h0]
      simp only [runLoop, if_neg hn]
      rcases hsh : startHogs (env.launchOk k) (env.responds k) (hogDirtyPct c)
          (hogRedirtyMs c) n.toNat with ⟨r, ps2⟩
      have hms : mkStep env c k n =
          (match (r, ps2) with
            | (Except.error msg, _) => abortStep c n msg
            | (Except.ok procs, _) => okStep env c k n (applyDeaths (env.dies k) procs)) := by
        rw [mkStep, hsh]
      cases r with
      | error msg =>
        dsimp only
        obtain ⟨ihs, ihe⟩ := ih (k + 1) (acc ++ [abortStep c n msg]) (w ++ ps2)
          (s ++ [countAlive w])
        refine ⟨?_, ihe⟩
        rw [ihs]
        rw [show List.enumFrom k (n :: posFilter rest)
          = (k, n) :: List.enumFrom (k + 1) (posFilter rest) from rfl]
        simp [hms, List.append_assoc]
      | ok procs =>
        dsimp only
        rw [if_neg (by simp [hnc k])]
        obtain ⟨ihs, ihe⟩ := ih (k + 1)
          (acc ++ [okStep env c k n (applyDeaths (env.dies k) procs)])
          (w ++ stopHogsProcs (applyDeaths (env.dies k) procs)) (s ++ [countAlive w])
        refine ⟨?_, ihe⟩
        rw [ihs]
        rw [show List.enumFrom k (n :: posFilter rest)
          = (k, n) :: List.enumFrom (k + 1) (posFilter rest) from rfl]
        simp [hms, List.append_assoc]

lemma runLoop_world_exited (env : Env) (c : Config) :
    ∀ (l : List Int) (k : Nat) (acc : List StepResult) (w : List Proc) (s : List Nat),
      (∀ p ∈ w, p.live = Liveness.exited) →
      ∀ p ∈ (runLoop env c l k acc w s).world, p.live = Liveness.exited := by
  intro l
  induction l with
  | nil => intro k acc w s hw; simpa [runLoop] using hw
  | cons n rest ih =>
    intro k acc w s hw
    by_cases hn : n ≤ 0
    · simp only [runLoop, if_pos hn]
      exact ih k acc w s hw
    · simp only [runLoop, if_neg hn]
      rcases hsh : startHogs (env.launchOk k) (env.responds k) (hogDirtyPct c)
          (hogRedirtyMs c) n.toNat with ⟨r, ps2⟩
      cases r with
      | error msg =>
        dsimp only
        apply ih
        intro p hp
        rcases List.mem_append.mp hp with h | h
        · exact hw p h
        · exact startHogs_error_exited hsh p h
      | ok procs =>
        dsimp only
        by_cases hc : env.cancel k
        · rw [if_pos hc]
          intro p hp
          rcases List.mem_append.mp hp with h | h
          · exact hw p h
          · exact stopHogsProcs_exited h
        · rw [if_neg hc]
          apply ih
          intro p hp
          rcases List.mem_append.mp hp with h | h
          · exact hw p h
          · exact stopHogsProcs_exited h

lemma runLoop_spawns_zero (env : Env) (c : Config) :
    ∀ (l : List Int) (k : Nat) (acc : List StepResult) (w : List Proc) (s : List Nat),
      (∀ x ∈ s, x = 0) → (∀ p ∈ w, p.live = Liveness.exited) →
      ∀ x ∈ (runLoop env c l k acc w s).spawnAliveCounts, x = 0 := by
  intro l
  induction l with
  | nil => intro k acc w s hs _; simpa [runLoop] using hs
  | cons n rest ih =>
    intro k acc w s hs hw
    have hs' : ∀ x ∈ s ++ [countAlive w], x = 0 := by
      intro x hx
      rcases List.mem_append.mp hx with h | h
      · exact hs x h
      · simp only [List.mem_singleton] at h
        rw [h]
        exact countAlive_eq_zero hw
    by_cases hn : n ≤ 0
    · simp only [runLoop, if_pos hn]
      exact ih k acc w s hs hw
    · simp only [runLoop, if_neg hn]
      rcases hsh : startHogs (env.launchOk k) (env.responds k) (hogDirtyPct c)
          (hogRedirtyMs c) n.toNat with ⟨r, ps2⟩
      cases r with
      | error msg =>
        dsimp only
        apply ih _ _ _ _ hs'
        intro p hp
        rcases List.mem_append.mp hp with h | h
        · exact hw p h
        · exact startHogs_error_exited hsh p h
      | ok procs =>
        dsimp only
        by_cases hc : env.cancel k
        · rw [if_pos hc]
          exact hs'
        · rw [if_neg hc]
          apply ih _ _ _ _ hs'
          intro p hp
          rcases List.mem_append.mp hp with h | h
          · exact hw p h
          · exact stopHogsProcs_exited h

lemma runLoop_steps_grow (env : Env) (c : Config) :
    ∀ (l : List Int) (k : Nat) (acc : List StepResult) (w : List Proc) (s : List Nat),
      acc <+: (runLoop env c l k acc w s).steps := by
  intro l
  induction l with
  | nil => intro k acc w s; simp [runLoop]
  | cons n rest ih =>
    intro k acc w s
    by_cases hn : n ≤ 0
    · simp only [runLoop, if_pos hn]
      exact ih k acc w s
    · simp only [runLoop, if_neg hn]
      rcases hsh : startHogs (env.launchOk k) (env.responds k) (hogDirtyPct c)
          (hogRedirtyMs c) n.toNat with ⟨r, ps2⟩
      cases r with
      | error msg =>
        dsimp only
        exact (List.prefix_append acc [abortStep c n msg]).trans (ih ..)
      | ok procs =>
        dsimp only
        by_cases hc : env.cancel k
        · rw [if_pos hc]
        · rw [if_neg hc]
          exact (List.prefix_append acc
            [okStep env c k n (applyDeaths (env.dies k) procs)]).trans (ih ..)

lemma runLoop_all_nonpos (env : Env) (c : Config) :
    ∀ (l : List Int) (k : Nat) (acc : List StepResult) (w : List Proc) (s : List Nat),
      (∀ n ∈ l, n ≤ 0) →
      runLoop env c l k acc w s =
        { steps := acc, error := none, world := w, spawnAliveCounts := s } := by
  intro l
  induction l with
  | nil => intro k acc w s _; rfl
  | cons n rest ih =>
    intro k acc w s h
    have hn : n ≤ 0 := h n (by simp)
    simp only [runLoop, if_pos hn]
    exact ih k acc w s (fun m hm => h m (by simp [hm]))

lemma runLoop_skip_nonpos (env : Env) (c : Config) {n0 : Int} (hn0 : n0 ≤ 0) :
    ∀ (l1 l2 : List Int) (k : Nat) (acc : List StepResult) (w : List Proc) (s : List Nat),
      runLoop env c (l1 ++ n0 :: l2) k acc w s = runLoop env c (l1 ++ l2) k acc w s := by
  intro l1
  induction l1 with
  | nil =>
    intro l2 k acc w s
    simp only [List.nil_append, runLoop, if_pos hn0]
  | cons m l1 ih =>
    intro l2 k acc w s
    simp only [List.cons_append, runLoop]
    by_cases hm : m ≤ 0
    · rw [if_pos hm, if_pos hm]
      exact ih l2 k acc w s
    · rw [if_neg hm, if_neg hm]
      rcases hsh : startHogs (env.launchOk k) (env.responds k) (hogDirtyPct c)
          (hogRedirtyMs c) m.toNat with ⟨r, ps2⟩
      cases r with
      | error msg => exact ih ..
      | ok procs =>
        dsimp only
        by_cases hc : env.cancel k
        · rw [if_pos hc, if_pos hc]
        · rw [if_neg hc, if_neg hc]
          exact ih ..

lemma runLoop_config_eq (env : Env) (e1 o1 k1 e2 o2 k2 p : String)
    (il1 il2 : List Int) (m w v : Int) :
    ∀ (l : List Int) (k : Nat) (acc : List StepResult) (wd : List Proc) (s : List Nat),
      runLoop env ⟨e1, o1, k1, p, il1, m, w, v⟩ l k acc wd s
        = runLoop env ⟨e2, o2, k2, p, il2, m, w, v⟩ l k acc wd s := by
  intro l
  induction l with
  | nil => intro k acc wd s; rfl
  | cons n rest ih =>
    intro k acc wd s
    simp only [runLoop]
    by_cases hn : n ≤ 0
    · rw [if_pos hn, if_pos hn]
      exact ih k acc wd s
    · rw [if_neg hn, if_neg hn]
      have hdp : hogDirtyPct ⟨e1, o1, k1, p, il1, m, w, v⟩
          = hogDirtyPct ⟨e2, o2, k2, p, il2, m, w, v⟩ := rfl
      have hrm : hogRedirtyMs ⟨e1, o1, k1, p, il1, m, w, v⟩
          = hogRedirtyMs ⟨e2, o2, k2, p, il2, m, w, v⟩ := rfl
      rw [hdp, hrm]
      rcases hsh : startHogs (env.launchOk k) (env.responds k)
          (hogDirtyPct ⟨e2, o2, k2, p, il2, m, w, v⟩)
          (hogRedirtyMs ⟨e2, o2, k2, p, il2, m, w, v⟩) n.toNat with ⟨r, ps2⟩
      cases r with
      | error msg =>
        dsimp only
        rw [show abortStep ⟨e1, o1, k1, p, il1, m, w, v⟩ n msg
          = abortStep ⟨e2, o2, k2, p, il2, m, w, v⟩ n msg from rfl]
        exact ih ..
      | ok procs =>
        dsimp only
        by_cases hc : env.cancel k
        · rw [if_pos hc, if_pos hc]
        · rw [if_neg hc, if_neg hc]
          rw [show okStep env ⟨e1, o1, k1, p, il1, m, w, v⟩ k n
                (applyDeaths (env.dies k) procs)
              = okStep env ⟨e2, o2, k2, p, il2, m, w, v⟩ k n
                (applyDeaths (env.dies k) procs) from rfl]
          exact ih ..

lemma RunModel_eq_runLoop (env : Env) (cfg : Config) (hx : cfg.execPath ≠ "")
    (hi : (normalizeConfig cfg).instances ≠ []) :
    RunModel env cfg
      = runLoop env (normalizeConfig cfg) (normalizeConfig cfg).instances 0 [] [] [] := by
  simp only [RunModel]
  rw [if_neg hx, if_neg hi]

/-- Cancelling run vs. the same run with cancellation removed: when the
cancelling run ends in the cancellation error, the steps it returns are a
prefix of the steps the uncancelled run records. -/
lemma runLoop_cancelled_steps_le (pz : Nat) (lo rs : Nat → Nat → Bool)
    (cz : Nat → Bool) (di : Nat → Nat → Bool)
    (pk : Nat → Option (List (String × Int))) (c : Config) :
    ∀ (l : List Int) (k : Nat) (acc : List StepResult) (w : List Proc) (s : List Nat),
      (runLoop ⟨pz, lo, rs, cz, di, pk⟩ c l k acc w s).error = some RunError.cancelled →
      (runLoop ⟨pz, lo, rs, cz, di, pk⟩ c l k acc w s).steps <+:
        (runLoop ⟨pz, lo, rs, fun _ => false, di, pk⟩ c l k acc w s).steps := by
  intro l
  induction l with
  | nil =>
    intro k acc w s h
    simp [runLoop] at h
  | cons n rest ih =>
    intro k acc w s h
    simp only [runLoop] at h ⊢
    by_cases hn : n ≤ 0
    · rw [if_pos hn] at h
      rw [if_pos hn, if_pos hn]
      exact ih k acc w s h
    · rw [if_neg hn] at h
      rw [if_neg hn, if_neg hn]
      rcases hsh : startHogs (lo k) (rs k) (hogDirtyPct c) (hogRedirtyMs c) n.toNat
        with ⟨r, ps2⟩
      rw [hsh] at h
      cases r with
      | error msg =>
        dsimp only at h ⊢
        exact ih _ _ _ _ h
      | ok procs =>
        dsimp only at h ⊢
        rw [if_neg Bool.false_ne_true]
        by_cases hc : cz k
        · rw [if_pos hc] at h
          rw [if_pos hc]
          dsimp only
          exact (List.prefix_append acc
            [okStep ⟨pz, lo, rs, fun _ => false, di, pk⟩ c k n
              (applyDeaths (di k) procs)]).trans (runLoop_steps_grow ..)
        · rw [if_neg hc] at h
          rw [if_neg hc]
          have hok : okStep (⟨pz, lo, rs, fun _ => false, di, pk⟩ : Env) c k n
                (applyDeaths (di k) procs)
              = okStep (⟨pz, lo, rs, cz, di, pk⟩ : Env) c k n
                (applyDeaths (di k) procs) := rfl
          rw [hok]
          exact ih _ _ _ _ h

lemma RunModel_cancelled_reached {env : Env} {cfg : Config}
    (hc : (RunModel env cfg).error = some RunError.cancelled) :
    cfg.execPath ≠ "" ∧ (normalizeConfig cfg).instances ≠ [] := by
  by_cases hx : cfg.execPath = ""
  · simp [RunModel, hx] at hc
  · by_cases hi : (normalizeConfig cfg).instances = []
    · simp [RunModel, hx, hi] at hc
    · exact ⟨hx, hi⟩

/-! ## Claims about the orchestrator -/

/-- C2: if the i-th of n launches fails, `startHogs` tears down all i-1
already-launched processes of the batch before surfacing the error and
returns no handles; and `Run` records that step with a `Startfehler` note
and a zero alive count — partial batches are never left running. -/
theorem c2_launch_failure_rollback :
    (∀ (lk rs : Nat → Bool) (dp : Rat) (rms : Int) (n i : Nat),
      1 ≤ i → i ≤ n → (∀ j, j + 1 < i → lk j = true) → lk (i - 1) = false →
      ∃ msg procs,
        startHogs lk rs dp rms n = (Except.error msg, procs)
        ∧ procs.length = i - 1
        ∧ ∀ p ∈ procs, p.live = Liveness.exited)
    ∧ (∀ (env : Env) (cfg : Config) (k : Nat) (nn : Int),
      cfg.execPath ≠ "" → (∀ t, env.cancel t = false) →
      (k, nn) ∈ List.enumFrom 0 (posFilter cfg.instances) →
      (∃ it, it < nn.toNat ∧ env.launchOk k it = false) →
      ∃ st ∈ (RunModel env cfg).steps,
        st.n = nn ∧ st.alive = 0 ∧ ∃ msg, st.notes = "Startfehler: " ++ msg) := by
  constructor
  · intro lk rs dp rms n i h1 h2 hpre hfail
    have hgo := startHogsGo_fail lk rs dp rms (i - 1) n 0 [] (by omega)
      (fun j hj => by simpa using hpre j (by omega)) (by simpa using hfail)
    refine ⟨"launch failed",
      stopHogsProcs ((List.range' 0 (i - 1)).map (mkProc dp rms rs)), ?_, ?_, ?_⟩
    · simpa [startHogs] using hgo
    · rw [stopHogsProcs_length, List.length_map, List.length_range']
    · intro p hp
      exact stopHogsProcs_exited hp
  · intro env cfg k nn hx hnc hmem hfail
    have hne : cfg.instances ≠ [] := by
      intro h0
      rw [h0] at hmem
      simp [posFilter] at hmem
    have hi' : (normalizeConfig cfg).instances ≠ [] := hne
    have hRM := RunModel_eq_runLoop env cfg hx hi'
    obtain ⟨hsteps, -⟩ := runLoop_no_cancel env (normalizeConfig cfg) hnc
      (normalizeConfig cfg).instances 0 [] [] []
    refine ⟨mkStep env (normalizeConfig cfg) k nn, ?_,
      mkStep_n env (normalizeConfig cfg) k nn,
      (mkStep_fail env (normalizeConfig cfg) k nn hfail).1,
      (mkStep_fail env (normalizeConfig cfg) k nn hfail).2⟩
    rw [hRM, hsteps]
    simp only [List.nil_append]
    exact List.mem_map.mpr ⟨(k, nn), hmem, rfl⟩

theorem c2_launch_failure_rollback_witness :
    (∃ msg procs,
      startHogs (fun j => j != 2) (fun _ => true) 0 0 5 = (Except.error msg, procs)
      ∧ procs.length = 2
      ∧ ∀ p ∈ procs, p.live = Liveness.exited)
    ∧ ∃ st ∈ (RunModel envLaunchFail (cfgDemo [5])).steps,
        st.n = 5 ∧ st.alive = 0 ∧ ∃ msg, st.notes = "Startfehler: " ++ msg := by
  constructor
  · have h := c2_launch_failure_rollback.1 (fun j => j != 2) (fun _ => true) 0 0 5 3
      (by norm_num) (by norm_num)
      (fun j hj => by
        have hj2 : j ≠ 2 := by omega
        simp [hj2])
      (by decide)
    simpa using h
  · exact c2_launch_failure_rollback.2 envLaunchFail (cfgDemo [5]) 0 5
      (by decide) (fun t => rfl) (by decide) ⟨2, by decide, by decide⟩

/-- C6: when cancellation is observed during a step's warmup, `Run`
returns the cancellation error (not swallowed) together with the steps
recorded so far (a prefix of what the identical run without cancellation
records), and every process it ever spawned — including the current
step's — has been torn down before returning. -/
theorem c6_cancellation (env envN : Env) (cfg : Config)
    (hps : envN.pageSize = env.pageSize) (hlo : envN.launchOk = env.launchOk)
    (hrs : envN.responds = env.responds) (hdi : envN.dies = env.dies)
    (hpk : envN.postKSM = env.postKSM) (hcz : envN.cancel = fun _ => false)
    (hc : (RunModel env cfg).error = some RunError.cancelled) :
    (∀ p ∈ (RunModel env cfg).world, p.live = Liveness.exited)
    ∧ (RunModel env cfg).steps <+: (RunModel envN cfg).steps := by
  obtain ⟨hx, hi⟩ := RunModel_cancelled_reached hc
  obtain ⟨pz, lo, rs, cz, di, pk⟩ := env
  obtain ⟨pz2, lo2, rs2, cz2, di2, pk2⟩ := envN
  dsimp only at hps hlo hrs hdi hpk hcz
  subst hps; subst hlo; subst hrs; subst hdi; subst hpk; subst hcz
  constructor
  · rw [RunModel_eq_runLoop _ cfg hx hi]
    exact runLoop_world_exited _ _ _ 0 [] [] [] (by simp)
  · rw [RunModel_eq_runLoop _ cfg hx hi] at hc
    rw [RunModel_eq_runLoop _ cfg hx hi, RunModel_eq_runLoop _ cfg hx hi]
    exact runLoop_cancelled_steps_le _ _ _ _ _ _ (normalizeConfig cfg)
      (normalizeConfig cfg).instances 0 [] [] [] hc

theorem c6_cancellation_witness :
    (∀ p ∈ (RunModel envCancelAll (cfgDemo [1, 2])).world, p.live = Liveness.exited)
    ∧ (RunModel envCancelAll (cfgDemo [1, 2])).steps <+:
        (RunModel envBase (cfgDemo [1, 2])).steps :=
  c6_cancellation envCancelAll envBase (cfgDemo [1, 2]) rfl rfl rfl rfl rfl rfl
    (by decide)

/-- C7: with a non-empty instance list and no cancellation, `Run` finishes
without error, appends exactly one step per positive requested count, in
request order (each step a function of its own position only), observes
zero alive processes at every spawn point (full teardown between steps),
leaves no process running, and an aborted spawn still yields a recorded
step with a failure note while the run proceeds. -/
theorem c7_run_sequencing (env : Env) (cfg : Config)
    (hx : cfg.execPath ≠ "") (hi : cfg.instances ≠ [])
    (hnc : ∀ t, env.cancel t = false) :
    (RunModel env cfg).error = none
    ∧ (RunModel env cfg).steps.map (fun st => st.n) = posFilter cfg.instances
    ∧ (RunModel env cfg).steps
        = (List.enumFrom 0 (posFilter cfg.instances)).map
            (fun q => mkStep env (normalizeConfig cfg) q.1 q.2)
    ∧ (∀ x ∈ (RunModel env cfg).spawnAliveCounts, x = 0)
    ∧ (∀ p ∈ (RunModel env cfg).world, p.live = Liveness.exited)
    ∧ (∀ q ∈ List.enumFrom 0 (posFilter cfg.instances),
        (∃ it, it < q.2.toNat ∧ env.launchOk q.1 it = false) →
        (mkStep env (normalizeConfig cfg) q.1 q.2).alive = 0
        ∧ ∃ msg, (mkStep env (normalizeConfig cfg) q.1 q.2).notes
            = "Startfehler: " ++ msg) := by
  have hi' : (normalizeConfig cfg).instances ≠ [] := hi
  have hRM := RunModel_eq_runLoop env cfg hx hi'
  obtain ⟨hsteps, herr⟩ := runLoop_no_cancel env (normalizeConfig cfg) hnc
    (normalizeConfig cfg).instances 0 [] [] []
  refine ⟨?_, ?_, ?_, ?_, ?_, ?_⟩
  · rw [hRM]
    exact herr
  · rw [hRM, hsteps]
    simp only [List.nil_append, List.map_map]
    have hmapeq : ∀ q ∈ List.enumFrom 0 (posFilter (normalizeConfig cfg).instances),
        ((fun st : StepResult => st.n) ∘ fun q : Nat × Int =>
          mkStep env (normalizeConfig cfg) q.1 q.2) q
          = (fun q : Nat × Int => q.2) q := fun q _ =>
      mkStep_n env (normalizeConfig cfg) q.1 q.2
    rw [List.map_congr_left hmapeq, enumFrom_snd]
    rfl
  · rw [hRM, hsteps]
    simp only [List.nil_append]
    rfl
  · rw [hRM]
    exact runLoop_spawns_zero env _ _ 0 [] [] [] (by simp) (by simp)
  · rw [hRM]
    exact runLoop_world_exited env _ _ 0 [] [] [] (by simp)
  · intro q _ hfail
    exact mkStep_fail env (normalizeConfig cfg) q.1 q.2 hfail

theorem c7_run_sequencing_witness :
    (RunModel envBase (cfgDemo [1, 2])).error = none
    ∧ (RunModel envBase (cfgDemo [1, 2])).steps.map (fun st => st.n)
        = posFilter (cfgDemo [1, 2]).instances
    ∧ (RunModel envBase (cfgDemo [1, 2])).steps
        = (List.enumFrom 0 (posFilter (cfgDemo [1, 2]).instances)).map
            (fun q => mkStep envBase (normalizeConfig (cfgDemo [1, 2])) q.1 q.2)
    ∧ (∀ x ∈ (RunModel envBase (cfgDemo [1, 2])).spawnAliveCounts, x = 0)
    ∧ (∀ p ∈ (RunModel envBase (cfgDemo [1, 2])).world, p.live = Liveness.exited)
    ∧ (∀ q ∈ List.enumFrom 0 (posFilter (cfgDemo [1, 2]).instances),
        (∃ it, it < q.2.toNat ∧ envBase.launchOk q.1 it = false) →
        (mkStep envBase (normalizeConfig (cfgDemo [1, 2])) q.1 q.2).alive = 0
        ∧ ∃ msg, (mkStep envBase (normalizeConfig (cfgDemo [1, 2])) q.1 q.2).notes
            = "Startfehler: " ++ msg) :=
  c7_run_sequencing envBase (cfgDemo [1, 2]) (by decide) (by decide) (fun t => rfl)

/-- C10: `Run` silently skips non-positive instance counts — removing such
an entry does not change the outcome at all (no step, no spawn attempt, no
error) — and a non-empty list of only non-positive counts yields a
successful empty-step outcome rather than a configuration error. -/
theorem c10_nonpositive_skipped :
    (∀ (env : Env) (cfg : Config) (n0 : Int) (l1 l2 : List Int),
      n0 ≤ 0 → l1 ++ l2 ≠ [] →
      RunModel env { cfg with instances := l1 ++ n0 :: l2 }
        = RunModel env { cfg with instances := l1 ++ l2 })
    ∧ (∀ (env : Env) (cfg : Config) (l : List Int),
      cfg.execPath ≠ "" → l ≠ [] → (∀ n ∈ l, n ≤ 0) →
      RunModel env { cfg with instances := l }
        = { steps := [], error := none, world := [], spawnAliveCounts := [] }) := by
  constructor
  · intro env cfg n0 l1 l2 hn0 hne
    by_cases hx : cfg.execPath = ""
    · simp [RunModel, hx]
    · have hx1 : ({ cfg with instances := l1 ++ n0 :: l2 } : Config).execPath ≠ "" := hx
      have hx2 : ({ cfg with instances := l1 ++ l2 } : Config).execPath ≠ "" := hx
      have hi1 : (normalizeConfig { cfg with instances := l1 ++ n0 :: l2 }).instances
          ≠ [] := by
        intro h
        obtain ⟨-, h2⟩ := List.append_eq_nil.mp h
        exact List.cons_ne_nil _ _ h2
      have hi2 : (normalizeConfig { cfg with instances := l1 ++ l2 }).instances
          ≠ [] := hne
      rw [RunModel_eq_runLoop _ _ hx1 hi1, RunModel_eq_runLoop _ _ hx2 hi2]
      rw [show (normalizeConfig { cfg with instances := l1 ++ n0 :: l2 }).instances
        = l1 ++ n0 :: l2 from rfl]
      rw [show (normalizeConfig { cfg with instances := l1 ++ l2 }).instances
        = l1 ++ l2 from rfl]
      rw [runLoop_skip_nonpos env _ hn0 l1 l2 0 [] [] []]
      exact runLoop_config_eq env _ _ _ _ _ _ _ _ _ _ _ _ (l1 ++ l2) 0 [] [] []
  · intro env cfg l hx hl hnp
    have hx' : ({ cfg with instances := l } : Config).execPath ≠ "" := hx
    have hi' : (normalizeConfig { cfg with instances := l }).instances ≠ [] := hl
    rw [RunModel_eq_runLoop _ _ hx' hi']
    rw [show (normalizeConfig { cfg with instances := l }).instances = l from rfl]
    exact runLoop_all_nonpos env _ l 0 [] [] [] hnp

theorem c10_nonpositive_skipped_witness :
    RunModel envBase { cfgDemo [5] with instances := [1] ++ (0 : Int) :: [2] }
      = RunModel envBase { cfgDemo [5] with instances := [1] ++ [2] }
    ∧ RunModel envBase { cfgDemo [5] with instances := [0, -3] }
      = { steps := [], error := none, world := [], spawnAliveCounts := [] } :=
  ⟨c10_nonpositive_skipped.1 envBase (cfgDemo [5]) 0 [1] [2] (by norm_num)
      (by decide),
    c10_nonpositive_skipped.2 envBase (cfgDemo [5]) [0, -3] (by decide) (by decide)
      (by decide)⟩

end Density
